import Mathlib

/-!
Verification of the MOS audio-rating tool (`mos.py`).

The program scans a directory for audio files, walks a per-session index
through the sorted catalog, appends each submitted rating to a remote
Google-Sheets store, and recomputes a local per-file mean-opinion-score
summary CSV.

This file gives a shallow embedding of that logic:
* `get_audio_files` embeds the catalog lister (mos.py lines 48-56);
* `update_mos_summary` embeds the aggregation pipeline (lines 58-84),
  with `to_numeric` / `keptRows` for `pd.to_numeric(errors=coerce)`
  followed by `dropna`, and group means computed over exact rationals
  (the float means the examples mention, 4.0 etc., are exactly
  representable in `float64`, so `Rat` arithmetic agrees there);
* stateful wrappers (`conn_read`, `conn_update`, `update_mos_summary_st`,
  `save_rating`) make the remote store, the local summary file and the
  UI messages explicit, with boolean fault flags standing for a raised
  network exception;
* `main_step` embeds the per-rerun session-state logic of `main`
  (lines 129-134, 177-178, 225-245), and `Reachable` the states a
  session can actually be in.
-/

namespace MOS

/-! ## String order and lowercasing

Python sorts strings by code point, character by character; `lexLe` is
that (non-strict) lexicographic order on the character lists underlying
strings, and `strLe` the induced order on strings. `toLowerStr` models
`str.lower()` character-wise with `Char.toLower`; for deciding
membership in the ASCII allow-list {.wav, .mp3, .ogg} this agrees with
full Unicode lowercasing. -/

/-- Code-point lexicographic order on character lists. -/
def lexLe : List Char → List Char → Bool
  | [], _ => true
  | _ :: _, [] => false
  | a :: as, b :: bs => if a = b then lexLe as bs else decide (a < b)

/-- The (non-strict) code-point order on strings, as Python compares them. -/
def strLe (a b : String) : Prop := lexLe a.data b.data = true

instance : DecidableRel strLe := fun a b =>
  inferInstanceAs (Decidable (lexLe a.data b.data = true))

/-- `str.lower()`, character-wise. -/
def toLowerStr (s : String) : String := String.mk (s.data.map Char.toLower)

/-! ## Audio catalog lister -/

/-- One entry of `AUDIO_FOLDER.iterdir()`: a name together with whether the
entry is a regular file (`f.is_file()`). -/
structure DirEntry where
  name : String
  isFile : Bool
deriving DecidableEq

/-- `pathlib.PurePath.suffix`: the part of the name from the last dot on,
provided that dot is neither the first nor the last character; otherwise
the empty string. -/
def pathSuffix (name : String) : String :=
  let cs := name.data
  let dots := (List.range cs.length).filter (fun i => cs.getD i ' ' = '.')
  match dots.getLast? with
  | some i => if 0 < i ∧ i + 1 < cs.length then String.mk (cs.drop i) else ""
  | none => ""

/-- The allow-list `supported_extensions` of mos.py line 50. -/
def supported_extensions : List String := [".wav", ".mp3", ".ogg"]

/-- The filter of the list comprehension at mos.py lines 51-54:
`f.suffix.lower() in supported_extensions and f.is_file()`. -/
def isAudioEntry (f : DirEntry) : Bool :=
  supported_extensions.contains (toLowerStr (pathSuffix f.name)) && f.isFile

/-- `get_audio_files` (mos.py lines 48-56): filter the directory listing by
extension and regular-file-ness, keep the names, and sort them
(`files.sort()`, ascending code-point lexicographic order). -/
def get_audio_files (dir : List DirEntry) : List String :=
  ((dir.filter isAudioEntry).map DirEntry.name).insertionSort strLe

/-! ## MOS aggregator -/

/-- A cell of the `rating` column as read back from the sheet: a numeric
value, a non-numeric string (for example "N/A"), or a missing value.
Numeric strings that `pd.to_numeric` would parse are represented as
`num` directly; `nonNumeric` stands for the strings it cannot parse. -/
inductive Cell where
  | num (q : ℚ)
  | nonNumeric (s : String)
  | missing
deriving DecidableEq

/-- A raw row of the Ratings worksheet (`usecols=[0, 1, 2]`:
user_id, audio_file, rating). -/
structure RawRow where
  user_id : String
  audio_file : String
  rating : Cell
deriving DecidableEq

/-- `pd.to_numeric(df[rating], errors=coerce)` on one cell: numeric cells
keep their value, non-numeric and missing cells become NaN (`none`). -/
def to_numeric : Cell → Option ℚ
  | .num q => some q
  | .nonNumeric _ => none
  | .missing => none

/-- The rows surviving `df.dropna(subset=[rating])` (mos.py lines 68-69),
projected to the (audio_file, numeric rating) pairs the groupby uses. -/
def keptRows (rows : List RawRow) : List (String × ℚ) :=
  rows.filterMap (fun r => (to_numeric r.rating).map (fun q => (r.audio_file, q)))

/-- Number of kept ratings for one audio file: the size of its groupby
group. -/
def groupCount (kept : List (String × ℚ)) (k : String) : Nat :=
  (kept.filter (fun p => p.1 == k)).length

/-- Sum of the kept ratings for one audio file. -/
def groupSum (kept : List (String × ℚ)) (k : String) : ℚ :=
  ((kept.filter (fun p => p.1 == k)).map Prod.snd).sum

/-- A row of the local `mos_summary.csv`: after
`groupby(audio_file)[rating].mean().reset_index()` and the rename of
`rating` to `MOS` (mos.py lines 75-76), a summary row holds exactly the
columns `audio_file` and `MOS`. -/
structure MosRow where
  audio_file : String
  MOS : ℚ
deriving DecidableEq

/-- The header of the written summary file: `mos_df` has exactly these two
columns, in this order. -/
def summaryColumns : List String := ["audio_file", "MOS"]

/-- The summary built from the kept (post-dropna) rows: `if df.empty:
return` (no file written, `none`), otherwise one row per distinct
audio_file, in the ascending key order `groupby(sort=True)` produces,
carrying that group's arithmetic mean. -/
def summaryOfKept (kept : List (String × ℚ)) : Option (List MosRow) :=
  if kept.isEmpty then none
  else some ((((kept.map Prod.fst).dedup).insertionSort strLe).map
    (fun k => ⟨k, groupSum kept k / (groupCount kept k : ℚ)⟩))

/-- The pure core of `update_mos_summary` (mos.py lines 58-84) as a function
of the rating collection read from the sheet: coerce ratings to numbers,
drop the non-numeric ones, and if anything is left produce the per-file
mean summary. `none` means the early `return`: no summary is written. -/
def update_mos_summary (rows : List RawRow) : Option (List MosRow) :=
  summaryOfKept (keptRows rows)

/-- The rating collection of the worked example:
[("u1","a.wav",3), ("u2","a.wav",5), ("u3","b.wav",4)]. -/
def exampleRatings : List RawRow :=
  [⟨"u1", "a.wav", .num 3⟩, ⟨"u2", "a.wav", .num 5⟩, ⟨"u3", "b.wav", .num 4⟩]

/-! ## Stateful model: remote store, local summary file, UI

The remote Ratings worksheet is a list of raw rows; the local
`mos_summary.csv` is `Option (List MosRow)` (`none` while no summary has
been written); UI output is the list of messages shown. A raised network
exception on a `conn` call is modelled by a boolean fault flag turning
the call into `Except.error`. -/

/-- The remote Google-Sheets Ratings worksheet. -/
structure Store where
  rows : List RawRow
deriving DecidableEq

/-- A message shown in the Streamlit UI (`st.error`, `st.warning`, ...). -/
inductive UIMsg where
  | error (s : String)
  | warning (s : String)
deriving DecidableEq

/-- `conn.read(worksheet=WORKSHEET_NAME, ...)`: returns all rows, or raises
(models a network/permission failure). -/
def conn_read (fault : Bool) (s : Store) : Except String (List RawRow) :=
  if fault then .error "network" else .ok s.rows

/-- `conn.update(worksheet=WORKSHEET_NAME, data=new_data)`: appends the new
row, or raises. -/
def conn_update (fault : Bool) (s : Store) (row : RawRow) : Except String Store :=
  if fault then .error "network" else .ok ⟨s.rows ++ [row]⟩

/-- `update_mos_summary` (mos.py lines 58-84) with its effects explicit:
read the sheet; on an exception show `st.error` and return with nothing
written (the `except` clause, lines 81-84); otherwise compute the
summary and, unless the early `return` of line 72 fires, overwrite the
local summary file. The remote store is only read. -/
def update_mos_summary_st (readFault : Bool) (s : Store)
    (loc : Option (List MosRow)) (ui : List UIMsg) :
    Store × Option (List MosRow) × List UIMsg :=
  match conn_read readFault s with
  | .error e => (s, loc, ui ++ [.error ("Error updating MOS summary: " ++ e)])
  | .ok rows =>
    match update_mos_summary rows with
    | none => (s, loc, ui)
    | some m => (s, some m, ui)

/-- The body of the `try` block of `save_rating` (mos.py lines 90-104):
append the new row to the sheet, then trigger the summary update. The
propagated exception, if any, comes from `conn.update`
(`update_mos_summary` swallows its own). -/
def save_rating_body (appendFault readFault : Bool)
    (user_id audio_file : String) (rating : ℚ) (s : Store)
    (loc : Option (List MosRow)) (ui : List UIMsg) :
    Except String (Store × Option (List MosRow) × List UIMsg) := do
  let s2 ← conn_update appendFault s ⟨user_id, audio_file, .num rating⟩
  pure (update_mos_summary_st readFault s2 loc ui)

/-- `save_rating` (mos.py lines 86-108): run the body; on an exception show
`st.error` and `st.warning` and return normally with the store and the
local summary unchanged. -/
def save_rating (appendFault readFault : Bool)
    (user_id audio_file : String) (rating : ℚ) (s : Store)
    (loc : Option (List MosRow)) (ui : List UIMsg) :
    Store × Option (List MosRow) × List UIMsg :=
  match save_rating_body appendFault readFault user_id audio_file rating s loc ui with
  | .ok r => r
  | .error e =>
    (s, loc, ui ++ [.error ("Failed to save rating to Google Sheets: " ++ e),
                    .warning "Please check your Google Sheet permissions and setup."])

/-! ## Session progress tracker

`main` (mos.py lines 113-245) runs once per Streamlit rerun. The
session state relevant to progress is `current_audio_index` and
`ratings_submitted` (lines 131-134). A rerun either merely renders
(`Action.view`: no form submission) or processes a submission
(`Action.submit fault`, where `fault` says whether the remote append
inside `save_rating` raised). `main_step` is the state after one rerun;
`Reachable` are the session states an actual session (of a non-empty
catalog; an empty one stops at line 126 before any state exists) can
reach. -/

/-- The per-session progress state (mos.py lines 131-134). The generated
`user_id` is omitted: it never changes and no claim mentions it. -/
structure SessionState where
  current_audio_index : Nat
  ratings_submitted : Bool
deriving DecidableEq

/-- What happens during one rerun of the script. -/
inductive Action where
  | view
  | submit (appendFault : Bool)
deriving DecidableEq

/-- One rerun of `main` for a catalog of `n` audio files, acting on the
session state: first the completion check of lines 177-178; if the
session is complete the completion view is shown and `st.stop()` ends
the run (lines 180-192); otherwise, on a form submission, `save_rating`
is called (its outcome does not influence the session state: it catches
its own exceptions), the index is incremented, and the completion flag
is set when the post-increment index equals the catalog length
(lines 225-245). -/
def main_step (n : Nat) (s : SessionState) (a : Action) : SessionState :=
  let s1 := if n ≤ s.current_audio_index then { s with ratings_submitted := true } else s
  if s1.ratings_submitted then s1
  else
    match a with
    | .view => s1
    | .submit _ =>
      let s2 := { s1 with current_audio_index := s1.current_audio_index + 1 }
      if s2.current_audio_index = n then { s2 with ratings_submitted := true } else s2

/-- The session states reachable in a session over a catalog of `n` files:
the freshly initialised state (lines 131-134; only created when the
catalog is non-empty, since line 126 stops empty-catalog runs), closed
under reruns. -/
inductive Reachable (n : Nat) : SessionState → Prop where
  | init : 1 ≤ n → Reachable n ⟨0, false⟩
  | step {s : SessionState} (a : Action) : Reachable n s → Reachable n (main_step n s a)

end MOS

namespace MOS

/-! ## Properties of the string order -/

theorem lexLe_total : ∀ as bs : List Char, lexLe as bs = true ∨ lexLe bs as = true
  | [], _ => Or.inl rfl
  | _ :: _, [] => Or.inr rfl
  | a :: as, b :: bs => by
    by_cases h : a = b
    · subst h
      simpa only [lexLe, if_pos rfl] using lexLe_total as bs
    · have h2 : ¬b = a := fun e => h e.symm
      simp only [lexLe, if_neg h, if_neg h2, decide_eq_true_eq]
      exact lt_or_gt_of_ne h

theorem lexLe_trans :
    ∀ as bs cs : List Char, lexLe as bs = true → lexLe bs cs = true → lexLe as cs = true
  | [], _, _, _, _ => rfl
  | _ :: _, [], _, h1, _ => by simp [lexLe] at h1
  | _ :: _, _ :: _, [], _, h2 => by simp [lexLe] at h2
  | a :: as, b :: bs, c :: cs, h1, h2 => by
    by_cases hab : a = b
    · subst hab
      rw [lexLe, if_pos rfl] at h1
      by_cases hac : a = c
      · subst hac
        rw [lexLe, if_pos rfl] at h2 ⊢
        exact lexLe_trans as bs cs h1 h2
      · rw [lexLe, if_neg hac] at h2 ⊢
        exact h2
    · rw [lexLe, if_neg hab, decide_eq_true_eq] at h1
      by_cases hbc : b = c
      · subst hbc
        rw [lexLe, if_neg hab, decide_eq_true_eq]
        exact h1
      · rw [lexLe, if_neg hbc, decide_eq_true_eq] at h2
        have hac : a < c := lt_trans h1 h2
        rw [lexLe, if_neg (ne_of_lt hac), decide_eq_true_eq]
        exact hac

theorem lexLe_antisymm :
    ∀ as bs : List Char, lexLe as bs = true → lexLe bs as = true → as = bs
  | [], [], _, _ => rfl
  | [], _ :: _, _, h2 => by simp [lexLe] at h2
  | _ :: _, [], h1, _ => by simp [lexLe] at h1
  | a :: as, b :: bs, h1, h2 => by
    by_cases hab : a = b
    · subst hab
      rw [lexLe, if_pos rfl] at h1 h2
      rw [lexLe_antisymm as bs h1 h2]
    · have hba : ¬b = a := fun e => hab e.symm
      rw [lexLe, if_neg hab, decide_eq_true_eq] at h1
      rw [lexLe, if_neg hba, decide_eq_true_eq] at h2
      exact absurd h2 (not_lt_of_gt h1)

instance : IsTotal String strLe := ⟨fun a b => lexLe_total a.data b.data⟩

instance : IsTrans String strLe := ⟨fun a b c => lexLe_trans a.data b.data c.data⟩

instance : IsAntisymm String strLe :=
  ⟨fun a b h1 h2 => by
    cases a; cases b
    exact congrArg String.mk (lexLe_antisymm _ _ h1 h2)⟩

theorem lexLe_iff :
    ∀ as bs : List Char, lexLe as bs = true ↔ ¬List.Lex (fun a b : Char => a < b) bs as
  | [], bs => by
    constructor
    · intro _ h
      cases h
    · intro _
      rfl
  | a :: as, [] => by
    constructor
    · intro h
      simp [lexLe] at h
    · intro h
      exact absurd List.Lex.nil h
  | a :: as, b :: bs => by
    by_cases hab : a = b
    · subst hab
      rw [lexLe, if_pos rfl, lexLe_iff as bs]
      refine not_congr ⟨fun h => List.Lex.cons h, fun h => ?_⟩
      cases h with
      | cons h3 => exact h3
      | rel hba => exact absurd hba (lt_irrefl a)
    · rw [lexLe, if_neg hab, decide_eq_true_eq]
      constructor
      · intro hlt h
        cases h with
        | cons _ => exact hab rfl
        | rel hba => exact absurd (lt_trans hlt hba) (lt_irrefl a)
      · intro h
        rcases lt_trichotomy a b with h1 | h1 | h1
        · exact h1
        · exact absurd h1 hab
        · exact absurd (List.Lex.rel h1) h

/-- `strLe` is the standard lexicographic order on strings. -/
theorem strLe_iff_le (a b : String) : strLe a b ↔ a ≤ b := by
  rw [String.le_iff_toList_le]
  show lexLe a.data b.data = true ↔ a.data ≤ b.data
  rw [lexLe_iff a.data b.data]
  show ¬b.data < a.data ↔ a.data ≤ b.data
  exact not_lt

/-! ## Session-state invariant -/

/-- In every reachable session state the index is at most the catalog
length and the completion flag is set exactly when the index has reached
it. -/
theorem reachable_inv {n : Nat} {s : SessionState} (h : Reachable n s) :
    s.current_audio_index ≤ n
      ∧ (s.ratings_submitted = true ↔ n ≤ s.current_audio_index) := by
  induction h with
  | init hn =>
    refine ⟨Nat.zero_le n, ?_⟩
    simp only [Bool.false_eq_true, false_iff]
    omega
  | @step s a hr ih =>
    obtain ⟨i, b⟩ := s
    obtain ⟨h1, h2⟩ := ih
    simp only at h1 h2
    by_cases hge : n ≤ i
    · have hb : b = true := h2.mpr hge
      subst hb
      cases a <;> simp [main_step, hge]
      · omega
      · omega
    · have hb : b = false := by
        cases b
        · rfl
        · exact absurd (h2.mp rfl) hge
      subst hb
      cases a with
      | view =>
        simp [main_step, hge]
        omega
      | submit f =>
        by_cases he : i + 1 = n
        · simp [main_step, hge, he]
        · simp [main_step, hge, he]
          omega

/-! ## Claims about the session progress tracker -/

/-- C5: in any reachable session state, a rerun switches the completion
flag from unset to set exactly when it processes a submission whose
post-increment index equals the catalog length; and once the flag is
set, no rerun unsets it. -/
theorem completion_transition {n : Nat} {s : SessionState} (h : Reachable n s) (a : Action) :
    ((s.ratings_submitted = false ∧ (main_step n s a).ratings_submitted = true)
        ↔ (∃ f, a = .submit f) ∧ s.current_audio_index + 1 = n)
    ∧ (s.ratings_submitted = true → (main_step n s a).ratings_submitted = true) := by
  obtain ⟨h1, h2⟩ := reachable_inv h
  obtain ⟨i, b⟩ := s
  simp only at h1 h2
  by_cases hge : n ≤ i
  · have hb : b = true := h2.mpr hge
    subst hb
    cases a <;> simp [main_step, hge]
    omega
  · have hb : b = false := by
      cases b
      · rfl
      · exact absurd (h2.mp rfl) hge
    subst hb
    cases a with
    | view =>
      simp [main_step, hge]
    | submit f =>
      by_cases he : i + 1 = n
      · simp [main_step, hge, he]
      · simp [main_step, hge, he]

/-- Witness for `completion_transition`: with one audio file, the very
first submission flips the completion flag. -/
theorem completion_transition_witness :
    (⟨0, false⟩ : SessionState).ratings_submitted = false
    ∧ (main_step 1 ⟨0, false⟩ (.submit false)).ratings_submitted = true :=
  (completion_transition (Reachable.init (by decide)) (Action.submit false)).1.mpr
    ⟨⟨false, rfl⟩, rfl⟩

/-- C10: in every reachable session state, a set completion flag implies
the index has reached the catalog length, and no rerun ever decreases
the index. -/
theorem progress_monotone {n : Nat} {s : SessionState} (h : Reachable n s) (a : Action) :
    (s.ratings_submitted = true → n ≤ s.current_audio_index)
    ∧ s.current_audio_index ≤ (main_step n s a).current_audio_index := by
  refine ⟨fun hb => (reachable_inv h).2.mp hb, ?_⟩
  obtain ⟨i, b⟩ := s
  by_cases hge : n ≤ i
  · cases a <;> cases b <;> simp [main_step, hge]
  · cases a <;> cases b <;> simp [main_step, hge]
    split <;> simp

/-- Witness for `progress_monotone`, at the completed state a
one-file session reaches after its single submission. -/
theorem progress_monotone_witness :
    (1 ≤ (⟨1, true⟩ : SessionState).current_audio_index)
    ∧ (⟨1, true⟩ : SessionState).current_audio_index
        ≤ (main_step 1 ⟨1, true⟩ Action.view).current_audio_index := by
  have he : main_step 1 ⟨0, false⟩ (.submit false) = ⟨1, true⟩ := by decide
  have hr : Reachable 1 ⟨1, true⟩ :=
    he ▸ Reachable.step (Action.submit false) (Reachable.init (by decide))
  exact ⟨(progress_monotone hr Action.view).1 rfl, (progress_monotone hr Action.view).2⟩

/-- C1 (code bug): a submission whose remote append raises still advances
the index. `save_rating` swallows the failure (the store is unchanged
and only the error report is shown), and `main` increments
`current_audio_index` unconditionally afterwards: with a catalog of two
files, a failed submission at index 0 leaves the store empty yet moves
the session to index 1 — the claim requires it to stay at 0. -/
theorem failed_append_still_advances :
    save_rating true false "user_1" "a.wav" 3 ⟨[]⟩ none []
      = (⟨[]⟩, none,
          [.error "Failed to save rating to Google Sheets: network",
           .warning "Please check your Google Sheet permissions and setup."])
    ∧ main_step 2 ⟨0, false⟩ (.submit true) = ⟨1, false⟩ := by decide

/-! ## Claims about the aggregator and the store -/

/-- C6: an empty rating collection yields no summary (`none`: the early
return of line 72 fires, nothing is written) and no error: the stateful
run over an empty store returns normally, leaving the store, the local
summary and the UI untouched. -/
theorem update_mos_summary_empty :
    update_mos_summary [] = none
    ∧ ∀ (loc : Option (List MosRow)) (ui : List UIMsg),
        update_mos_summary_st false ⟨[]⟩ loc ui = (⟨[]⟩, loc, ui) :=
  ⟨rfl, fun _ _ => rfl⟩

/-- C8: aggregation never writes to the remote store: whatever the read
outcome, the store component of `update_mos_summary_st` is the input
store. -/
theorem update_mos_summary_preserves_store :
    ∀ (readFault : Bool) (s : Store) (loc : Option (List MosRow)) (ui : List UIMsg),
      (update_mos_summary_st readFault s loc ui).1 = s := by
  intro f s loc ui
  cases f
  · unfold update_mos_summary_st conn_read
    simp only [Bool.false_eq_true, if_false]
    split <;> rfl
  · rfl

/-- C7: recomputation is idempotent: over a fixed rating collection, the
summary after running the aggregation twice equals the summary after
running it once. -/
theorem update_mos_summary_idempotent :
    ∀ (readFault : Bool) (s : Store) (loc : Option (List MosRow)) (ui ui2 : List UIMsg),
      (update_mos_summary_st readFault s
          (update_mos_summary_st readFault s loc ui).2.1 ui2).2.1
        = (update_mos_summary_st readFault s loc ui).2.1 := by
  intro f s loc ui ui2
  cases f
  · unfold update_mos_summary_st conn_read
    simp only [Bool.false_eq_true, if_false]
    cases update_mos_summary s.rows <;> rfl
  · rfl

/-- C9: `save_rating` never propagates a failure of the remote store:
whenever its `try` body raises, it returns normally with the store and
the local summary unchanged and the error reported in the UI; whenever
the body succeeds, it returns the body's result. -/
theorem save_rating_catches (af rf : Bool) (uid file : String) (q : ℚ)
    (s : Store) (loc : Option (List MosRow)) (ui : List UIMsg) :
    (∀ e, save_rating_body af rf uid file q s loc ui = .error e →
        save_rating af rf uid file q s loc ui
          = (s, loc, ui ++ [.error ("Failed to save rating to Google Sheets: " ++ e),
                            .warning "Please check your Google Sheet permissions and setup."]))
    ∧ (∀ out, save_rating_body af rf uid file q s loc ui = .ok out →
        save_rating af rf uid file q s loc ui = out) := by
  constructor
  · intro e he
    simp [save_rating, he]
  · intro out hout
    simp [save_rating, hout]

/-- Witness for `save_rating_catches`: a failing append raises inside the
body, and `save_rating` converts it into a normal return carrying the
error report. -/
theorem save_rating_catches_witness :
    save_rating_body true false "u" "a.wav" 3 ⟨[]⟩ none [] = .error "network"
    ∧ save_rating true false "u" "a.wav" 3 ⟨[]⟩ none []
        = (⟨[]⟩, none,
            [.error "Failed to save rating to Google Sheets: network",
             .warning "Please check your Google Sheet permissions and setup."]) := by
  refine ⟨rfl, ?_⟩
  have h := (save_rating_catches true false "u" "a.wav" 3 ⟨[]⟩ none []).1 "network" rfl
  simpa using h

/-- C4: a record whose score is non-numeric or missing is excluded from
the aggregation: it contributes to no group (hence to neither the sum
nor the count of its audio file), and the resulting summary is the one
of the collection without it; no error is raised (the embedding is a
total function). -/
theorem malformed_excluded (l1 l2 : List RawRow) (bad : RawRow)
    (hbad : to_numeric bad.rating = none) :
    keptRows (l1 ++ bad :: l2) = keptRows (l1 ++ l2)
    ∧ update_mos_summary (l1 ++ bad :: l2) = update_mos_summary (l1 ++ l2) := by
  have hk : keptRows (l1 ++ bad :: l2) = keptRows (l1 ++ l2) := by
    simp only [keptRows, List.filterMap_append]
    rw [List.filterMap_cons_none]
    simp [hbad]
  exact ⟨hk, by simp only [update_mos_summary, hk]⟩

/-- Witness for `malformed_excluded`: a rating of "N/A" between two valid
records changes nothing. -/
theorem malformed_excluded_witness :
    to_numeric (RawRow.mk "u9" "a.wav" (.nonNumeric "N/A")).rating = none
    ∧ (keptRows ([⟨"u1", "a.wav", .num 3⟩] ++ ⟨"u9", "a.wav", .nonNumeric "N/A"⟩
          :: [⟨"u2", "b.wav", .num 4⟩])
        = keptRows ([⟨"u1", "a.wav", .num 3⟩] ++ [⟨"u2", "b.wav", .num 4⟩])
      ∧ update_mos_summary ([⟨"u1", "a.wav", .num 3⟩] ++ ⟨"u9", "a.wav", .nonNumeric "N/A"⟩
          :: [⟨"u2", "b.wav", .num 4⟩])
        = update_mos_summary ([⟨"u1", "a.wav", .num 3⟩] ++ [⟨"u2", "b.wav", .num 4⟩])) :=
  ⟨rfl, malformed_excluded [⟨"u1", "a.wav", .num 3⟩] [⟨"u2", "b.wav", .num 4⟩]
    ⟨"u9", "a.wav", .nonNumeric "N/A"⟩ rfl⟩

/-- C2: `get_audio_files` returns exactly the names of the regular-file
entries whose extension, lowercased, is in the allow-list; the result is
sorted ascending in the lexicographic string order (`≤`, which is the
code-point order Python uses); and the result is the same for any two
listings of the same entries, so repeated calls over an unchanged
directory agree however `iterdir()` orders it. -/
theorem get_audio_files_spec (dir dir2 : List DirEntry) (hperm : dir.Perm dir2) :
    (∀ name, name ∈ get_audio_files dir
        ↔ ∃ e ∈ dir, e.name = name ∧ e.isFile = true
            ∧ toLowerStr (pathSuffix e.name) ∈ supported_extensions)
    ∧ (get_audio_files dir).Sorted (fun a b : String => a ≤ b)
    ∧ get_audio_files dir = get_audio_files dir2 := by
  refine ⟨?_, List.Pairwise.imp (fun h => (strLe_iff_le _ _).mp h)
    (List.sorted_insertionSort strLe _), ?_⟩
  · intro name
    rw [get_audio_files, (List.perm_insertionSort strLe _).mem_iff]
    simp only [List.mem_map, List.mem_filter, isAudioEntry, Bool.and_eq_true, List.elem_iff]
    constructor
    · rintro ⟨e, ⟨hmem, hext, hfile⟩, hname⟩
      exact ⟨e, hmem, hname, hfile, hext⟩
    · rintro ⟨e, hmem, hname, hfile, hext⟩
      exact ⟨e, ⟨hmem, hext, hfile⟩, hname⟩
  · apply List.eq_of_perm_of_sorted ?_ (List.sorted_insertionSort strLe _)
      (List.sorted_insertionSort strLe _)
    exact (List.perm_insertionSort strLe _).trans
      (((hperm.filter isAudioEntry).map DirEntry.name).trans
        (List.perm_insertionSort strLe _).symm)

/-- Witness for `get_audio_files_spec`: two listings of the same four
entries, in different orders, give the same sorted catalog. -/
theorem get_audio_files_spec_witness :
    ([⟨"b.WAV", true⟩, ⟨"a.mp3", true⟩, ⟨"c.txt", true⟩, ⟨"d.ogg", false⟩] : List DirEntry).Perm
        [⟨"a.mp3", true⟩, ⟨"b.WAV", true⟩, ⟨"c.txt", true⟩, ⟨"d.ogg", false⟩]
    ∧ ((∀ name,
          name ∈ get_audio_files
              [⟨"b.WAV", true⟩, ⟨"a.mp3", true⟩, ⟨"c.txt", true⟩, ⟨"d.ogg", false⟩]
          ↔ ∃ e ∈ ([⟨"b.WAV", true⟩, ⟨"a.mp3", true⟩, ⟨"c.txt", true⟩,
                ⟨"d.ogg", false⟩] : List DirEntry),
              e.name = name ∧ e.isFile = true
                ∧ toLowerStr (pathSuffix e.name) ∈ supported_extensions)
        ∧ (get_audio_files
            [⟨"b.WAV", true⟩, ⟨"a.mp3", true⟩, ⟨"c.txt", true⟩,
              ⟨"d.ogg", false⟩]).Sorted (fun a b : String => a ≤ b)
        ∧ get_audio_files [⟨"b.WAV", true⟩, ⟨"a.mp3", true⟩, ⟨"c.txt", true⟩, ⟨"d.ogg", false⟩]
            = get_audio_files
                [⟨"a.mp3", true⟩, ⟨"b.WAV", true⟩, ⟨"c.txt", true⟩, ⟨"d.ogg", false⟩]) :=
  have hperm :
      ([⟨"b.WAV", true⟩, ⟨"a.mp3", true⟩, ⟨"c.txt", true⟩, ⟨"d.ogg", false⟩] : List DirEntry).Perm
        [⟨"a.mp3", true⟩, ⟨"b.WAV", true⟩, ⟨"c.txt", true⟩, ⟨"d.ogg", false⟩] :=
    List.Perm.swap (⟨"a.mp3", true⟩ : DirEntry) (⟨"b.WAV", true⟩ : DirEntry) _
  ⟨hperm, get_audio_files_spec _ _ hperm⟩

/-! ## The worked aggregation example -/

/-- Group sums and sizes for the example collection: a.wav gathers 3 and 5
(sum 8, count 2), b.wav gathers 4 (sum 4, count 1). -/
theorem groupVals_example :
    groupSum (keptRows exampleRatings) "a.wav" = 8
    ∧ groupSum (keptRows exampleRatings) "b.wav" = 4
    ∧ groupCount (keptRows exampleRatings) "a.wav" = 2
    ∧ groupCount (keptRows exampleRatings) "b.wav" = 1 := by
  have hkept : keptRows exampleRatings
      = [("a.wav", (3 : ℚ)), ("a.wav", 5), ("b.wav", 4)] := by decide
  have hfa : [("a.wav", (3 : ℚ)), ("a.wav", 5), ("b.wav", 4)].filter (fun p => p.1 == "a.wav")
      = [("a.wav", 3), ("a.wav", 5)] := by decide
  have hfb : [("a.wav", (3 : ℚ)), ("a.wav", 5), ("b.wav", 4)].filter (fun p => p.1 == "b.wav")
      = [("b.wav", 4)] := by decide
  refine ⟨?_, ?_, by decide, by decide⟩
  · simp only [groupSum, hkept, hfa, List.map_cons, List.map_nil, List.sum_cons, List.sum_nil]
    norm_num
  · simp only [groupSum, hkept, hfb, List.map_cons, List.map_nil, List.sum_cons, List.sum_nil]
    norm_num

/-- The summary the code produces for the example collection: two rows,
each holding an audio file and its mean. -/
theorem update_example_eval :
    update_mos_summary exampleRatings = some [⟨"a.wav", 4⟩, ⟨"b.wav", 4⟩] := by
  have hkept : keptRows exampleRatings
      = [("a.wav", (3 : ℚ)), ("a.wav", 5), ("b.wav", 4)] := by decide
  have hkeys : List.insertionSort strLe (["a.wav", "a.wav", "b.wav"] : List String).dedup
      = ["a.wav", "b.wav"] := by decide
  obtain ⟨hsa, hsb, hca, hcb⟩ := groupVals_example
  rw [hkept] at hsa hsb hca hcb
  show summaryOfKept (keptRows exampleRatings) = _
  rw [hkept]
  simp only [summaryOfKept, List.isEmpty_cons, Bool.false_eq_true, if_false,
    List.map_cons, List.map_nil]
  rw [hkeys]
  simp only [List.map_cons, List.map_nil, hsa, hsb, hca, hcb]
  norm_num

/-- C3 counterexample: the claim requires every summary row to carry both
the mean and the group size, but a produced row holds exactly the two
columns `audio_file` and `MOS` (the key and the mean). For the example
collection the a.wav group has size 2, while the a.wav row's only
numeric field is its mean 4 ≠ 2: the group size appears nowhere in the
row. -/
theorem summary_row_lacks_count :
    update_mos_summary exampleRatings = some [⟨"a.wav", 4⟩, ⟨"b.wav", 4⟩]
    ∧ summaryColumns = ["audio_file", "MOS"]
    ∧ groupCount (keptRows exampleRatings) "a.wav" = 2
    ∧ ∀ r ∈ ([⟨"a.wav", 4⟩, ⟨"b.wav", 4⟩] : List MosRow),
        r.audio_file = "a.wav" → ¬r.MOS = 2 := by
  refine ⟨update_example_eval, rfl, groupVals_example.2.2.1, ?_⟩
  intro r hr
  fin_cases hr
  · intro _ h2
    norm_num at h2
  · intro h1
    exact absurd h1 (by decide)

/-- C3 amended: over the example collection the code yields the summary
{a.wav ↦ MOS 4, b.wav ↦ MOS 4}, the means of its groups of sizes 2
and 1 (sums 8 and 4); each row carries the audio file and the mean, but
not the group size. -/
theorem update_mos_summary_example :
    update_mos_summary exampleRatings = some [⟨"a.wav", 4⟩, ⟨"b.wav", 4⟩]
    ∧ groupCount (keptRows exampleRatings) "a.wav" = 2
    ∧ groupCount (keptRows exampleRatings) "b.wav" = 1
    ∧ groupSum (keptRows exampleRatings) "a.wav" = 8
    ∧ groupSum (keptRows exampleRatings) "b.wav" = 4 :=
  ⟨update_example_eval, groupVals_example.2.2.1, groupVals_example.2.2.2,
    groupVals_example.1, groupVals_example.2.1⟩

end MOS
